import Mathlib

/-!
# Verification of the `KnowledgeArchive` insight store

A shallow embedding of
`python/packages/autogen-ext/src/autogen_ext/agentic_memory/_knowledge_archive.py`.

Python dictionaries are modelled as association lists with the usual
first-occurrence lookup and in-place update; Python `str(n)` for a natural
number is `toString n`; distances and relevance scores (Python floats that are
only added and compared here) are modelled as rationals; a raised
`AssertionError` / `KeyError` is modelled with `Except`.

The `MemoStore` similarity index lives in `_memo_store.py`, which is not among
the sources; its interface is modelled from the spec (§6): it records
(topic, insight-id) associations, and `get_related_memos` answers a
nearest-neighbour query with (matched-topic, insight-id, distance) triples.
Since the distance metric is an external embedding model, queries are
abstracted as an oracle parameter.
-/

/-- Association-list lookup, modelling Python `d[k]` / `k in d` (first match). -/
def alistFind {α : Type} : List (String × α) → String → Option α
  | [], _ => none
  | p :: rest, k => if p.1 = k then some p.2 else alistFind rest k

/-- Association-list insertion, modelling Python `d[k] = v`: replace the
existing entry for `k` if present, otherwise append a new entry. -/
def dictInsert {α : Type} : List (String × α) → String → α → List (String × α)
  | [], k, v => [(k, v)]
  | p :: rest, k, v => if p.1 = k then (k, v) :: rest else p :: dictInsert rest k v

/-- Modelling the Python pattern
`if k in d: d[k] += v else: d[k] = v` on a float-valued dict. -/
def bucketAdd : List (String × ℚ) → String → ℚ → List (String × ℚ)
  | [], k, v => [(k, v)]
  | p :: rest, k, v => if p.1 = k then (k, p.2 + v) :: rest else p :: bucketAdd rest k v

/-- The `Insight` dataclass of `_knowledge_archive.py`. `task_str` is optional:
`add_insight` may be called with `task_str=None`. -/
structure Insight where
  id : String
  insight_str : String
  task_str : Option String
  topics : List String
deriving DecidableEq

/-- Modelled from the spec: the similarity-index collaborator (`MemoStore`,
defined in `_memo_store.py`, not among the sources). Its durable content is
the list of recorded (topic, insight-id) associations. -/
structure MemoStore where
  pairs : List (String × String)
deriving DecidableEq

/-- Modelled from the spec: `add(key, value)` records one association. -/
def MemoStore.add_input_output_pair (m : MemoStore) (inp out : String) : MemoStore :=
  ⟨m.pairs ++ [(inp, out)]⟩

/-- A similarity-query oracle standing for `MemoStore.get_related_memos`:
given the store state, a query topic, `n_results` and `threshold`, it returns
(matched-topic, insight-id, distance) triples. The distance metric comes from
an external embedding model, hence the abstraction. -/
def QueryFun : Type := MemoStore → String → Nat → Nat → List (String × String × ℚ)

/-- The mutable state of a `KnowledgeArchive` object. -/
structure KnowledgeArchive where
  memo_store : MemoStore
  uid_insight_dict : List (String × Insight)
  last_insight_id : Nat
deriving DecidableEq

/-- The durable storage for one run directory: the memo store's own files and
the pickled `uid_insight_dict` snapshot (`none` = file does not exist). -/
structure Disk where
  memo_file : Option (List (String × String))
  dict_file : Option (List (String × Insight))
deriving DecidableEq

/-- A run directory with no prior data. -/
def emptyDisk : Disk := ⟨none, none⟩

/-- `KnowledgeArchive.__init__`: construct the memo store (wiped if `reset`),
then load the insight dict snapshot if `reset` is false and the file exists,
setting `last_insight_id = len(uid_insight_dict)`; otherwise start empty. -/
def constructArchive (reset : Bool) (disk : Disk) : KnowledgeArchive :=
  let memo : MemoStore := if reset then ⟨[]⟩ else ⟨disk.memo_file.getD []⟩
  match reset, disk.dict_file with
  | false, some d => ⟨memo, d, d.length⟩
  | _, _ => ⟨memo, [], 0⟩

/-- `save_archive`: persist the memo store and pickle `uid_insight_dict`. -/
def save_archive (a : KnowledgeArchive) : Disk :=
  ⟨some a.memo_store.pairs, some a.uid_insight_dict⟩

/-- Errors surfaced by the archive: a failed `assert` (`InvalidArgument` in the
spec's taxonomy) and a failed dict lookup (Python `KeyError`). -/
inductive ArchiveError where
  | invalidArgument : ArchiveError
  | keyError : String → ArchiveError
deriving DecidableEq

/-- The body of `add_insight` after its assertion has passed: bump
`last_insight_id`, build the `Insight`, add one memo-store association per
topic, insert into `uid_insight_dict`. -/
def addInsightCore (a : KnowledgeArchive) (ins : String) (t : Option String)
    (ts : List String) : KnowledgeArchive :=
  let id_str := toString (a.last_insight_id + 1)
  let insight : Insight := ⟨id_str, ins, t, ts⟩
  { memo_store := ts.foldl (fun m topic => m.add_input_output_pair topic id_str) a.memo_store
    uid_insight_dict := dictInsert a.uid_insight_dict id_str insight
    last_insight_id := a.last_insight_id + 1 }

/-- `add_insight`: asserts `topics is not None`, then runs `addInsightCore`. -/
def add_insight (a : KnowledgeArchive) (ins : String) (t : Option String) :
    Option (List String) → Except ArchiveError KnowledgeArchive
  | none => .error .invalidArgument
  | some ts => .ok (addInsightCore a ins t ts)

/-- `add_demonstration`: no assertion; synthesizes the insight text from the
fixed template and stores it with `task_str = task`. -/
def add_demonstration (a : KnowledgeArchive) (task demonstration : String)
    (topics : List String) : KnowledgeArchive :=
  let id_str := toString (a.last_insight_id + 1)
  let ins := "Example task:\n\n" ++ task ++ "\nExample solution:\n\n" ++ demonstration
  let insight : Insight := ⟨id_str, ins, some task, topics⟩
  { memo_store := topics.foldl (fun m topic => m.add_input_output_pair topic id_str) a.memo_store
    uid_insight_dict := dictInsert a.uid_insight_dict id_str insight
    last_insight_id := a.last_insight_id + 1 }

/-- The `matches` list of `get_relevant_insights`: start from `[]` and extend
with each topic's query results, in topic order. -/
def topicMatches (q : QueryFun) (m : MemoStore) (ts : List String) :
    List (String × String × ℚ) :=
  ts.foldl (fun acc topic => acc ++ q m topic 25 100) []

/-- One iteration of the match loop: `relevance = 1.7 - distance`, look the
insight up by id (`KeyError` if absent), and accumulate into the bucket for
its `insight_str`. -/
def scoreMatch (dict : List (String × Insight)) (d : List (String × ℚ))
    (m : String × String × ℚ) : Except ArchiveError (List (String × ℚ)) :=
  match alistFind dict m.2.1 with
  | none => .error (.keyError m.2.1)
  | some i => .ok (bucketAdd d i.insight_str ((17 : ℚ) / 10 - m.2.2))

/-- `get_relevant_insights`: the two assertions, the per-topic queries, the
relevance accumulation, and the strictly-negative-bucket deletion. Returns the
(unchanged) object state together with the result dict. -/
def get_relevant_insights (q : QueryFun) (a : KnowledgeArchive)
    (t : Option String) (topics : Option (List String)) :
    Except ArchiveError (KnowledgeArchive × List (String × ℚ)) :=
  if t = none ∧ topics = none then .error .invalidArgument
  else match topics with
  | none => .error .invalidArgument
  | some ts =>
    match (topicMatches q a.memo_store ts).foldlM (scoreMatch a.uid_insight_dict) [] with
    | .error e => .error e
    | .ok d => .ok (a, d.filter (fun p => !decide (p.2 < 0)))

/-- The pure per-match accumulation step, used to describe the successful runs
of the match loop: a match whose id does not resolve is skipped (that branch is
unreachable when every id resolves). -/
def scoreStep (dict : List (String × Insight)) (d : List (String × ℚ))
    (m : String × String × ℚ) : List (String × ℚ) :=
  match alistFind dict m.2.1 with
  | none => d
  | some i => bucketAdd d i.insight_str ((17 : ℚ) / 10 - m.2.2)

/-- Stated from the spec's words, for comparison with the code: the sum, over
all matches whose insight-id resolves to the text `t`, of `1.7 - distance`. -/
def specRelevanceSum (dict : List (String × Insight)) (t : String)
    (ms : List (String × String × ℚ)) : ℚ :=
  ((ms.filter (fun m => decide ((alistFind dict m.2.1).map Insight.insight_str = some t))).map
    (fun m => (17 : ℚ) / 10 - m.2.2)).sum

/-- The insight texts that the matches resolve to, in match order. -/
def resolvedTexts (dict : List (String × Insight))
    (ms : List (String × String × ℚ)) : List String :=
  ms.filterMap (fun m => (alistFind dict m.2.1).map Insight.insight_str)

/-- A freshly constructed archive over an empty run directory: counter 0,
empty mapping. -/
def emptyArchive : KnowledgeArchive := constructArchive false emptyDisk

/-- One successful mutating call: an `add_insight` call with its (supplied)
arguments, or an `add_demonstration` call. -/
inductive ArchiveOp where
  | insight (ins : String) (t : Option String) (ts : List String) : ArchiveOp
  | demonstration (task demonstration : String) (ts : List String) : ArchiveOp

/-- Apply one successful call (with topics supplied, `add_insight` always
succeeds, so the error branch is unreachable). -/
def applyOp (a : KnowledgeArchive) : ArchiveOp → KnowledgeArchive
  | .insight ins t ts =>
    match add_insight a ins t (some ts) with
    | .ok a' => a'
    | .error _ => a
  | .demonstration task demonstration ts => add_demonstration a task demonstration ts

/-- Run a sequence of successful calls. -/
def runOps (a : KnowledgeArchive) (ops : List ArchiveOp) : KnowledgeArchive :=
  ops.foldl applyOp a

/-- The ids allocated by a sequence of calls, in call order: each call
allocates `str(last_insight_id + 1)` of the state it runs in. -/
def allocatedIds (a : KnowledgeArchive) : List ArchiveOp → List String
  | [] => []
  | op :: ops => toString (a.last_insight_id + 1) :: allocatedIds (applyOp a op) ops

/-- The dense-id invariant maintained by the archive: the keys of
`uid_insight_dict`, in insertion order, are exactly `"1", ..., str(counter)`. -/
def denseIds (a : KnowledgeArchive) : Prop :=
  a.uid_insight_dict.map Prod.fst = (List.range a.last_insight_id).map (fun i => toString (i + 1))

/-- The archive states arising in the system's own lifecycle: construction
over a fresh run directory, construction over a directory persisted by
`save_archive` from such a state, and successful mutating calls. -/
inductive Reachable : KnowledgeArchive → Prop
  | fresh (reset : Bool) : Reachable (constructArchive reset emptyDisk)
  | load (a : KnowledgeArchive) (reset : Bool) :
      Reachable a → Reachable (constructArchive reset (save_archive a))
  | step (a : KnowledgeArchive) (op : ArchiveOp) :
      Reachable a → Reachable (applyOp a op)

/-- A concrete query oracle for closed instances: topic `"x"` matches insight
id `"1"` at distance `1`, topic `"y"` matches id `"1"` at distance `6/5`,
topic `"z"` matches the dangling id `"9"` at distance `0`, any other topic
matches nothing. -/
def witnessQuery : QueryFun := fun _ topic _ _ =>
  if topic = "x" then [("x", "1", (1 : ℚ))]
  else if topic = "y" then [("y", "1", (6 : ℚ) / 5)]
  else if topic = "z" then [("z", "9", (0 : ℚ))]
  else []

/-- A concrete archive state for closed instances: one stored insight with
id `"1"` and text `"T"`. -/
def witnessArchive : KnowledgeArchive :=
  ⟨⟨[("x", "1"), ("y", "1")]⟩, [("1", ⟨"1", "T", none, ["x", "y"]⟩)], 1⟩

example : add_insight (constructArchive true emptyDisk) "i" none (some ["t"]) =
    .ok ⟨⟨[("t", "1")]⟩, [("1", ⟨"1", "i", none, ["t"]⟩)], 1⟩ := by rfl

example : add_insight (constructArchive true emptyDisk) "i" none (some []) =
    .ok ⟨⟨[]⟩, [("1", ⟨"1", "i", none, []⟩)], 1⟩ := by rfl

example : add_demonstration (constructArchive true emptyDisk) "T" "D" ["x"] =
    ⟨⟨[("x", "1")]⟩, [("1", ⟨"1", "Example task:\n\nT\nExample solution:\n\nD", some "T", ["x"]⟩)], 1⟩ := by
  rfl

/-! ### Injectivity of the decimal id encoding `str(n)` -/

theorem toDigitsCore_append (b : Nat) :
    ∀ (fuel n : Nat) (ds : List Char),
      Nat.toDigitsCore b fuel n ds = Nat.toDigitsCore b fuel n [] ++ ds := by
  intro fuel
  induction fuel with
  | zero => intro n ds; rfl
  | succ f ih =>
    intro n ds
    simp only [Nat.toDigitsCore]
    by_cases h : n / b = 0
    · simp [h]
    · simp only [h, if_false]
      rw [ih (n / b) (Nat.digitChar (n % b) :: ds), ih (n / b) [Nat.digitChar (n % b)]]
      simp

theorem toDigitsCore_eq_digits :
    ∀ n : Nat, 0 < n → ∀ fuel : Nat, n ≤ fuel →
      Nat.toDigitsCore 10 fuel n [] = (Nat.digits 10 n).reverse.map Nat.digitChar := by
  intro n
  induction n using Nat.strong_induction_on with
  | _ n ih =>
    intro hn fuel hfuel
    obtain ⟨f, rfl⟩ : ∃ f, fuel = f + 1 :=
      ⟨fuel - 1, (Nat.succ_pred_eq_of_pos (Nat.lt_of_lt_of_le hn hfuel)).symm⟩
    rw [Nat.digits_def' (by norm_num : (1 : Nat) < 10) hn]
    simp only [Nat.toDigitsCore]
    by_cases h : n / 10 = 0
    · simp [h]
    · simp only [h, if_false]
      have hdiv_lt : n / 10 < n := Nat.div_lt_self hn (by norm_num)
      have hdiv_le : n / 10 ≤ f := Nat.lt_succ_iff.mp (Nat.lt_of_lt_of_le hdiv_lt hfuel)
      rw [toDigitsCore_append, ih (n / 10) hdiv_lt (Nat.pos_of_ne_zero h) f hdiv_le]
      simp

theorem toDigits_eq_digits (n : Nat) (h : 0 < n) :
    Nat.toDigits 10 n = (Nat.digits 10 n).reverse.map Nat.digitChar :=
  toDigitsCore_eq_digits n h (n + 1) (Nat.le_succ n)

theorem digitChar_inj_lt : ∀ a < 10, ∀ b < 10, Nat.digitChar a = Nat.digitChar b → a = b := by
  decide

theorem map_digitChar_inj :
    ∀ l1 l2 : List Nat, (∀ x ∈ l1, x < 10) → (∀ x ∈ l2, x < 10) →
      l1.map Nat.digitChar = l2.map Nat.digitChar → l1 = l2 := by
  intro l1
  induction l1 with
  | nil => intro l2 _ _ h; cases l2 <;> simp_all
  | cons a l ih =>
    intro l2 h1 h2 h
    cases l2 with
    | nil => simp_all
    | cons c l2' =>
      simp only [List.map_cons, List.cons.injEq] at h
      have hac : a = c :=
        digitChar_inj_lt a (h1 a (by simp)) c (h2 c (by simp)) h.1
      have : l = l2' :=
        ih l2' (fun x hx => h1 x (by simp [hx])) (fun x hx => h2 x (by simp [hx])) h.2
      simp [hac, this]

theorem toDigits_injective {m n : Nat} (h : Nat.toDigits 10 m = Nat.toDigits 10 n) :
    m = n := by
  have digits_bound : ∀ k : Nat, ∀ x ∈ Nat.digits 10 k, x < 10 := fun k x hx =>
    Nat.digits_lt_base (by norm_num) hx
  have key : ∀ m n : Nat, Nat.toDigits 10 m = Nat.toDigits 10 n → 0 < m → 0 < n → m = n := by
    intro m n h hm hn
    rw [toDigits_eq_digits m hm, toDigits_eq_digits n hn] at h
    have : (Nat.digits 10 m).reverse = (Nat.digits 10 n).reverse :=
      map_digitChar_inj _ _ (fun x hx => digits_bound m x (List.mem_reverse.mp hx))
        (fun x hx => digits_bound n x (List.mem_reverse.mp hx)) h
    have hd : Nat.digits 10 m = Nat.digits 10 n := List.reverse_injective this
    calc m = Nat.ofDigits 10 (Nat.digits 10 m) := (Nat.ofDigits_digits 10 m).symm
      _ = Nat.ofDigits 10 (Nat.digits 10 n) := by rw [hd]
      _ = n := Nat.ofDigits_digits 10 n
  have zero_case : ∀ n : Nat, 0 < n → Nat.toDigits 10 0 ≠ Nat.toDigits 10 n := by
    intro n hn hcontra
    rw [toDigits_eq_digits n hn] at hcontra
    have h0 : Nat.toDigits 10 0 = ['0'] := rfl
    rw [h0] at hcontra
    have : [0] = (Nat.digits 10 n).reverse :=
      map_digitChar_inj [0] (Nat.digits 10 n).reverse (by simp)
        (fun x hx => digits_bound n x (List.mem_reverse.mp hx)) (by simpa using hcontra)
    have hd : Nat.digits 10 n = [0] := by
      have := congrArg List.reverse this
      simpa using this.symm
    have : n = 0 := by
      have := Nat.ofDigits_digits 10 n
      rw [hd] at this
      simpa using this.symm
    omega
  rcases Nat.eq_zero_or_pos m with hm | hm
  · rcases Nat.eq_zero_or_pos n with hn | hn
    · omega
    · exact absurd (hm ▸ h) (zero_case n hn)
  · rcases Nat.eq_zero_or_pos n with hn | hn
    · exact absurd (hn ▸ h).symm (zero_case m hm)
    · exact key m n h hm hn

theorem toString_nat_injective {m n : Nat} (h : toString m = toString n) : m = n := by
  have h' : (Nat.toDigits 10 m).asString = (Nat.toDigits 10 n).asString := h
  exact toDigits_injective (congrArg String.data h')

/-! ### Association-list lemmas -/

theorem alistFind_of_not_mem_keys {α : Type} (d : List (String × α)) (k : String)
    (h : k ∉ d.map Prod.fst) : alistFind d k = none := by
  induction d with
  | nil => rfl
  | cons p rest ih =>
    simp only [List.map_cons, List.mem_cons, not_or] at h
    have hpk : p.1 ≠ k := fun hc => h.1 hc.symm
    simp only [alistFind, if_neg hpk, ih h.2]

theorem dictInsert_of_not_mem_keys {α : Type} (d : List (String × α)) (k : String) (v : α)
    (h : k ∉ d.map Prod.fst) : dictInsert d k v = d ++ [(k, v)] := by
  induction d with
  | nil => rfl
  | cons p rest ih =>
    simp only [List.map_cons, List.mem_cons, not_or] at h
    have : p.1 ≠ k := fun hc => h.1 hc.symm
    simp only [dictInsert, if_neg this, ih h.2, List.cons_append]

theorem bucketAdd_find (d : List (String × ℚ)) (k : String) (v : ℚ) (t : String) :
    alistFind (bucketAdd d k v) t =
      if t = k then some ((alistFind d t).getD 0 + v) else alistFind d t := by
  induction d with
  | nil =>
    simp only [bucketAdd, alistFind]
    by_cases h : k = t
    · subst h; simp
    · rw [if_neg h, if_neg (fun hh => h hh.symm)]
  | cons p rest ih =>
    by_cases h1 : p.1 = k
    · simp only [bucketAdd, if_pos h1, alistFind]
      by_cases h2 : k = t
      · subst h2; rw [if_pos rfl, if_pos rfl, if_pos h1]; simp
      · rw [if_neg h2, if_neg (fun hh => h2 hh.symm), if_neg (h1 ▸ h2)]
    · simp only [bucketAdd, if_neg h1, alistFind]
      by_cases h2 : p.1 = t
      · rw [if_pos h2, if_pos h2, if_neg (fun hh : t = k => h1 (h2.trans hh))]
      · rw [if_neg h2, if_neg h2, ih]

theorem bucketAdd_keys (d : List (String × ℚ)) (k : String) (v : ℚ) :
    (bucketAdd d k v).map Prod.fst =
      if k ∈ d.map Prod.fst then d.map Prod.fst else d.map Prod.fst ++ [k] := by
  induction d with
  | nil => rfl
  | cons p rest ih =>
    by_cases h1 : p.1 = k
    · simp [bucketAdd, if_pos h1, h1]
    · simp only [bucketAdd, if_neg h1, List.map_cons, ih, List.mem_cons]
      by_cases h2 : k ∈ rest.map Prod.fst
      · simp [h2]
      · have hkp : ¬k = p.1 := fun hc => h1 hc.symm
        simp [h2, hkp]

theorem alistFind_filter (d : List (String × ℚ)) (t : String)
    (hnd : (d.map Prod.fst).Nodup) :
    alistFind (d.filter (fun p => !decide (p.2 < 0))) t =
      match alistFind d t with
      | some v => if v < 0 then none else some v
      | none => none := by
  induction d with
  | nil => rfl
  | cons p rest ih =>
    simp only [List.map_cons, List.nodup_cons] at hnd
    by_cases h1 : p.1 = t
    · by_cases h2 : p.2 < 0
      · have hrest : alistFind (rest.filter (fun p => !decide (p.2 < 0))) t = none := by
          apply alistFind_of_not_mem_keys
          intro hc
          apply hnd.1
          rw [h1]
          have : t ∈ (rest.filter (fun p => !decide (p.2 < 0))).map Prod.fst := hc
          obtain ⟨q, hq, rfl⟩ := List.mem_map.mp this
          exact List.mem_map.mpr ⟨q, List.mem_of_mem_filter hq, rfl⟩
        simp only [List.filter_cons, decide_eq_true_eq]
        rw [if_neg (by simp [h2])]
        simp only [alistFind, if_pos h1, hrest, h2, if_pos]
      · simp only [List.filter_cons]
        rw [if_pos (by simp [h2])]
        simp only [alistFind, if_pos h1, h2, if_neg]
        simp [h2]
    · simp only [List.filter_cons]
      by_cases h2 : p.2 < 0
      · rw [if_neg (by simp [h2])]
        simp only [alistFind, if_neg h1]
        exact ih hnd.2
      · rw [if_pos (by simp [h2])]
        simp only [alistFind, if_neg h1]
        exact ih hnd.2

/-! ### The match-loop characterization -/

theorem specRelevanceSum_cons (dict : List (String × Insight)) (t : String)
    (m : String × String × ℚ) (ms : List (String × String × ℚ)) :
    specRelevanceSum dict t (m :: ms) =
      (if (alistFind dict m.2.1).map Insight.insight_str = some t
        then (17 : ℚ) / 10 - m.2.2 else 0) + specRelevanceSum dict t ms := by
  simp only [specRelevanceSum, List.filter_cons]
  by_cases h : (alistFind dict m.2.1).map Insight.insight_str = some t
  · simp [h]
  · simp [h]

theorem resolvedTexts_cons (dict : List (String × Insight))
    (m : String × String × ℚ) (ms : List (String × String × ℚ)) :
    resolvedTexts dict (m :: ms) =
      match alistFind dict m.2.1 with
      | none => resolvedTexts dict ms
      | some i => i.insight_str :: resolvedTexts dict ms := by
  cases h : alistFind dict m.2.1 <;> simp [resolvedTexts, List.filterMap_cons, h]

theorem foldl_scoreStep_find (dict : List (String × Insight)) :
    ∀ (ms : List (String × String × ℚ)) (d : List (String × ℚ)) (t : String),
      alistFind (ms.foldl (scoreStep dict) d) t =
        match alistFind d t with
        | some v => some (v + specRelevanceSum dict t ms)
        | none =>
          if t ∈ resolvedTexts dict ms then some (specRelevanceSum dict t ms) else none := by
  intro ms
  induction ms with
  | nil =>
    intro d t
    cases h : alistFind d t <;> simp [specRelevanceSum, resolvedTexts, h]
  | cons m ms ih =>
    intro d t
    rw [List.foldl_cons, ih (scoreStep dict d m) t]
    rw [specRelevanceSum_cons, resolvedTexts_cons]
    cases hres : alistFind dict m.2.1 with
    | none =>
      have hstep : scoreStep dict d m = d := by simp [scoreStep, hres]
      rw [hstep]
      cases hd : alistFind d t <;> simp [hd]
    | some i =>
      have hstep : scoreStep dict d m =
          bucketAdd d i.insight_str ((17 : ℚ) / 10 - m.2.2) := by simp [scoreStep, hres]
      rw [hstep, bucketAdd_find]
      by_cases htk : t = i.insight_str
      · subst htk
        cases hd : alistFind d i.insight_str <;> simp [hd, add_assoc]
      · cases hd : alistFind d t <;>
          simp [hd, htk, Ne.symm htk, List.mem_cons]

theorem foldlM_scoreMatch_ok (dict : List (String × Insight)) :
    ∀ (ms : List (String × String × ℚ)) (d : List (String × ℚ)),
      (∀ m ∈ ms, (alistFind dict m.2.1).isSome) →
      ms.foldlM (scoreMatch dict) d = .ok (ms.foldl (scoreStep dict) d) := by
  intro ms
  induction ms with
  | nil => intro d _; rfl
  | cons m ms ih =>
    intro d h
    obtain ⟨i, hi⟩ := Option.isSome_iff_exists.mp (h m (by simp))
    have hstep : scoreMatch dict d m = .ok (scoreStep dict d m) := by
      simp [scoreMatch, scoreStep, hi]
    rw [List.foldlM_cons, hstep]
    show (ms.foldlM (scoreMatch dict) (scoreStep dict d m)) = _
    rw [List.foldl_cons]
    exact ih (scoreStep dict d m) (fun x hx => h x (List.mem_cons_of_mem m hx))

theorem foldlM_scoreMatch_error (dict : List (String × Insight)) :
    ∀ (ms : List (String × String × ℚ)) (d : List (String × ℚ)),
      (∃ m ∈ ms, alistFind dict m.2.1 = none) →
      ∃ k, ms.foldlM (scoreMatch dict) d = .error (.keyError k) := by
  intro ms
  induction ms with
  | nil => intro d h; simp at h
  | cons m ms ih =>
    intro d h
    cases hm : alistFind dict m.2.1 with
    | none =>
      refine ⟨m.2.1, ?_⟩
      have hstep : scoreMatch dict d m = .error (.keyError m.2.1) := by
        simp [scoreMatch, hm]
      rw [List.foldlM_cons, hstep]
      rfl
    | some i =>
      obtain ⟨x, hx, hxn⟩ := h
      rcases List.mem_cons.mp hx with rfl | hx'
      · rw [hm] at hxn; exact absurd hxn (by simp)
      · have hstep : scoreMatch dict d m = .ok (scoreStep dict d m) := by
          simp [scoreMatch, scoreStep, hm]
        obtain ⟨k, hk⟩ := ih (scoreStep dict d m) ⟨x, hx', hxn⟩
        refine ⟨k, ?_⟩
        rw [List.foldlM_cons, hstep]
        exact hk

theorem alistFind_dictInsert_self {α : Type} (d : List (String × α)) (k : String) (v : α) :
    alistFind (dictInsert d k v) k = some v := by
  induction d with
  | nil => simp [dictInsert, alistFind]
  | cons p rest ih =>
    by_cases h : p.1 = k
    · simp [dictInsert, alistFind, h]
    · simp only [dictInsert, if_neg h, alistFind, if_neg h]
      exact ih

theorem foldl_scoreStep_nodup (dict : List (String × Insight)) :
    ∀ (ms : List (String × String × ℚ)) (d : List (String × ℚ)),
      (d.map Prod.fst).Nodup → ((ms.foldl (scoreStep dict) d).map Prod.fst).Nodup := by
  intro ms
  induction ms with
  | nil => intro d h; exact h
  | cons m ms ih =>
    intro d h
    rw [List.foldl_cons]
    apply ih
    cases hres : alistFind dict m.2.1 with
    | none => simpa [scoreStep, hres] using h
    | some i =>
      simp only [scoreStep, hres]
      rw [bucketAdd_keys]
      by_cases hmem : i.insight_str ∈ d.map Prod.fst
      · simpa [hmem] using h
      · rw [if_neg hmem]
        simp [List.nodup_append, h, hmem]

/-! ### Lemmas about sequences of successful mutating calls -/

theorem applyOp_last (a : KnowledgeArchive) (op : ArchiveOp) :
    (applyOp a op).last_insight_id = a.last_insight_id + 1 := by
  cases op <;> rfl

theorem runOps_last (ops : List ArchiveOp) :
    ∀ a : KnowledgeArchive,
      (runOps a ops).last_insight_id = a.last_insight_id + ops.length := by
  induction ops with
  | nil => intro a; simp [runOps]
  | cons op ops ih =>
    intro a
    show (runOps (applyOp a op) ops).last_insight_id = _
    rw [ih, applyOp_last]
    simp [List.length_cons]
    omega

theorem allocatedIds_eq (ops : List ArchiveOp) :
    ∀ a : KnowledgeArchive,
      allocatedIds a ops =
        (List.range' (a.last_insight_id + 1) ops.length).map (fun i => toString i) := by
  induction ops with
  | nil => intro a; rfl
  | cons op ops ih =>
    intro a
    rw [allocatedIds, ih (applyOp a op), applyOp_last, List.length_cons, List.range'_succ]
    rfl

/-! ### The dense-id invariant along the archive's lifecycle -/

theorem denseIds_length {a : KnowledgeArchive} (h : denseIds a) :
    a.last_insight_id = a.uid_insight_dict.length := by
  have := congrArg List.length h
  simpa using this.symm

theorem denseIds_insert {a : KnowledgeArchive} (h : denseIds a) (i : Insight)
    (ms : MemoStore) :
    denseIds ⟨ms, dictInsert a.uid_insight_dict (toString (a.last_insight_id + 1)) i,
      a.last_insight_id + 1⟩ := by
  unfold denseIds at h ⊢
  have hnot : toString (a.last_insight_id + 1) ∉ a.uid_insight_dict.map Prod.fst := by
    rw [h]
    intro hc
    obtain ⟨j, hj, hje⟩ := List.mem_map.mp hc
    have hj' : j < a.last_insight_id := List.mem_range.mp hj
    have := toString_nat_injective hje
    omega
  rw [dictInsert_of_not_mem_keys _ _ _ hnot]
  simp only [List.map_append, h, List.range_succ, List.map_cons, List.map_nil]

theorem denseIds_applyOp {a : KnowledgeArchive} (h : denseIds a) (op : ArchiveOp) :
    denseIds (applyOp a op) := by
  cases op with
  | insight ins t ts => exact denseIds_insert h _ _
  | demonstration task demonstration ts => exact denseIds_insert h _ _

theorem denseIds_construct_fresh (reset : Bool) :
    denseIds (constructArchive reset emptyDisk) := by
  cases reset <;> simp [denseIds, constructArchive, emptyDisk]

theorem denseIds_load {a : KnowledgeArchive} (h : denseIds a) (reset : Bool) :
    denseIds (constructArchive reset (save_archive a)) := by
  cases reset with
  | true => simp [denseIds, constructArchive]
  | false =>
    have hlen : a.uid_insight_dict.length = a.last_insight_id := (denseIds_length h).symm
    show denseIds ⟨_, a.uid_insight_dict, a.uid_insight_dict.length⟩
    unfold denseIds
    simpa [hlen] using h

theorem reachable_denseIds : ∀ a : KnowledgeArchive, Reachable a → denseIds a := by
  intro a h
  induction h with
  | fresh reset => exact denseIds_construct_fresh reset
  | load a reset _ ih => exact denseIds_load ih reset
  | step a op _ ih => exact denseIds_applyOp ih op

/-! ### Characterization of a successful `get_relevant_insights` call -/

theorem get_relevant_ok_char (q : QueryFun) (a : KnowledgeArchive)
    (t0 : Option String) (ts : List String)
    (hres : ∀ m ∈ topicMatches q a.memo_store ts,
      (alistFind a.uid_insight_dict m.2.1).isSome) :
    ∃ d, get_relevant_insights q a t0 (some ts) = .ok (a, d) ∧
      ∀ t : String,
        alistFind d t =
          if t ∈ resolvedTexts a.uid_insight_dict (topicMatches q a.memo_store ts) ∧
              0 ≤ specRelevanceSum a.uid_insight_dict t (topicMatches q a.memo_store ts)
            then some (specRelevanceSum a.uid_insight_dict t (topicMatches q a.memo_store ts))
            else none := by
  refine ⟨((topicMatches q a.memo_store ts).foldl (scoreStep a.uid_insight_dict) []).filter
    (fun p => !decide (p.2 < 0)), ?_, ?_⟩
  · simp only [get_relevant_insights]
    rw [if_neg (by simp)]
    rw [foldlM_scoreMatch_ok _ _ [] hres]
  · intro t
    rw [alistFind_filter _ _ (foldl_scoreStep_nodup _ _ [] (by simp))]
    rw [foldl_scoreStep_find]
    show (match (if t ∈ resolvedTexts a.uid_insight_dict (topicMatches q a.memo_store ts)
        then some (specRelevanceSum a.uid_insight_dict t (topicMatches q a.memo_store ts))
        else none) with
      | some v => if v < 0 then none else some v
      | none => none) = _
    by_cases hmem : t ∈ resolvedTexts a.uid_insight_dict (topicMatches q a.memo_store ts)
    · rw [if_pos hmem]
      by_cases hneg : specRelevanceSum a.uid_insight_dict t (topicMatches q a.memo_store ts) < 0
      · have : ¬(t ∈ resolvedTexts a.uid_insight_dict (topicMatches q a.memo_store ts) ∧
            0 ≤ specRelevanceSum a.uid_insight_dict t (topicMatches q a.memo_store ts)) := by
          intro hc
          exact absurd hneg (not_lt.mpr hc.2)
        rw [if_neg this]
        simp [hneg]
      · rw [if_pos ⟨hmem, not_lt.mp hneg⟩]
        simp [hneg]
    · rw [if_neg hmem, if_neg (fun hc => hmem hc.1)]

/-! ### The claims -/

/-- C1: for every `get_relevant_insights` call with a non-empty topics list
(whose per-match id lookups all succeed), the returned mapping assigns to each
insight text `t` the sum, over all matches whose insight-id resolves to `t`
(pooling matches across topics and across distinct records with literally
identical `insight_str`), of `1.7 - distance`; and the mapping contains
exactly those resolved texts whose summed relevance is not strictly
negative. -/
theorem claim1_aggregation (q : QueryFun) (a : KnowledgeArchive)
    (task : Option String) (ts : List String) (_hts : ts ≠ [])
    (hres : ∀ m ∈ topicMatches q a.memo_store ts,
      (alistFind a.uid_insight_dict m.2.1).isSome) :
    ∃ d, get_relevant_insights q a task (some ts) = .ok (a, d) ∧
      ∀ t : String,
        alistFind d t =
          if t ∈ resolvedTexts a.uid_insight_dict (topicMatches q a.memo_store ts) ∧
              0 ≤ specRelevanceSum a.uid_insight_dict t (topicMatches q a.memo_store ts)
            then some (specRelevanceSum a.uid_insight_dict t (topicMatches q a.memo_store ts))
            else none :=
  get_relevant_ok_char q a task ts hres

theorem claim1_aggregation_witness :
    ((["x", "y"] : List String) ≠ []) ∧
    (∀ m ∈ topicMatches witnessQuery witnessArchive.memo_store ["x", "y"],
      (alistFind witnessArchive.uid_insight_dict m.2.1).isSome) ∧
    (∃ d, get_relevant_insights witnessQuery witnessArchive none (some ["x", "y"]) =
        .ok (witnessArchive, d) ∧
      ∀ t : String,
        alistFind d t =
          if t ∈ resolvedTexts witnessArchive.uid_insight_dict
                (topicMatches witnessQuery witnessArchive.memo_store ["x", "y"]) ∧
              0 ≤ specRelevanceSum witnessArchive.uid_insight_dict t
                (topicMatches witnessQuery witnessArchive.memo_store ["x", "y"])
            then some (specRelevanceSum witnessArchive.uid_insight_dict t
                (topicMatches witnessQuery witnessArchive.memo_store ["x", "y"]))
            else none) :=
  ⟨by decide, by decide,
    claim1_aggregation witnessQuery witnessArchive none ["x", "y"] (by decide) (by decide)⟩

/-- C2 counterexample: `add_insight` called with an *empty* (but supplied)
topics list does not fail — the Python `assert topics is not None` passes —
and the id counter is bumped from 0 to 1. -/
theorem claim2_counterexample :
    add_insight emptyArchive "i" none (some []) =
      .ok ⟨⟨[]⟩, [("1", ⟨"1", "i", none, []⟩)], 1⟩ := by rfl

/-- C2 amended: for every `add_insight` call whose topics argument is *absent*
(`None`), the call fails with `InvalidArgument`; no updated state is produced,
so the id counter is unchanged. (An empty topics list is accepted.) -/
theorem claim2_amended (a : KnowledgeArchive) (ins : String) (t : Option String) :
    add_insight a ins t none = .error .invalidArgument := rfl

/-- C3 counterexample: `get_relevant_insights` with an empty (but supplied)
topics list and no task string does not fail: both asserts pass and it
returns the empty mapping. -/
theorem claim3_counterexample :
    get_relevant_insights witnessQuery emptyArchive none (some []) =
      .ok (emptyArchive, []) := by rfl

/-- C3 amended: `get_relevant_insights` fails with `InvalidArgument` exactly
when topics is absent (`None`), whether or not `task_str` is supplied; with a
supplied-but-empty topics list it succeeds and returns the empty mapping. -/
theorem claim3_amended :
    (∀ (q : QueryFun) (a : KnowledgeArchive) (t : Option String),
      get_relevant_insights q a t none = .error .invalidArgument) ∧
    (∀ (q : QueryFun) (a : KnowledgeArchive) (t : Option String),
      get_relevant_insights q a t (some []) = .ok (a, [])) := by
  constructor
  · intro q a t
    cases t <;> rfl
  · intro q a t
    simp only [get_relevant_insights]
    rw [if_neg (by simp)]
    rfl

/-- C4 counterexample: `add_demonstration` with an empty topics list does not
fail (it performs no topics validation) and it does add an insight. -/
theorem claim4_counterexample :
    add_demonstration emptyArchive "T" "D" [] =
      ⟨⟨[]⟩, [("1", ⟨"1", "Example task:\n\nT\nExample solution:\n\nD", some "T", []⟩)],
        1⟩ := by rfl

/-- C4 amended: `add_demonstration` performs no topics validation: with an
empty topics sequence it succeeds, allocates the next id, and adds the
synthesized insight (recording no similarity-index association). -/
theorem claim4_amended (a : KnowledgeArchive) (task demonstration : String) :
    add_demonstration a task demonstration [] =
      ⟨a.memo_store,
        dictInsert a.uid_insight_dict (toString (a.last_insight_id + 1))
          ⟨toString (a.last_insight_id + 1),
            "Example task:\n\n" ++ task ++ "\nExample solution:\n\n" ++ demonstration,
            some task, []⟩,
        a.last_insight_id + 1⟩ := rfl

/-- C5: starting from an empty archive (counter 0, empty mapping), any
sequence of N successful `add_insight`/`add_demonstration` calls allocates
exactly the ids `"1", "2", ..., "N"` in call order, and the counter equals N
afterward. -/
theorem claim5_id_monotonicity (ops : List ArchiveOp) :
    allocatedIds emptyArchive ops =
      (List.range' 1 ops.length).map (fun i => toString i) ∧
    (runOps emptyArchive ops).last_insight_id = ops.length := by
  constructor
  · rw [allocatedIds_eq ops emptyArchive]
    rfl
  · rw [runOps_last ops emptyArchive]
    show 0 + ops.length = ops.length
    omega

/-- C6: the equality `last_insight_id = len(uid_insight_dict)` holds in every
archive state arising in the system's lifecycle: immediately after
construction (empty or loading a snapshot persisted by `save_archive`), and
after every successful `add_insight`/`add_demonstration` call. -/
theorem claim6_counter_count (a : KnowledgeArchive) (h : Reachable a) :
    a.last_insight_id = a.uid_insight_dict.length :=
  denseIds_length (reachable_denseIds a h)

theorem claim6_counter_count_witness :
    Reachable emptyArchive ∧
    emptyArchive.last_insight_id = emptyArchive.uid_insight_dict.length :=
  ⟨Reachable.fresh false, claim6_counter_count emptyArchive (Reachable.fresh false)⟩

/-- C7: `add_demonstration(T, D, topics)` with non-empty topics stores, under
the freshly allocated id, an insight whose `insight_str` is exactly
`"Example task:\n\n" ++ T ++ "\nExample solution:\n\n" ++ D` and whose
`task_str` equals `T`. -/
theorem claim7_demonstration_formatting (a : KnowledgeArchive)
    (task demonstration : String) (ts : List String) (_hts : ts ≠ []) :
    alistFind (add_demonstration a task demonstration ts).uid_insight_dict
        (toString (a.last_insight_id + 1)) =
      some ⟨toString (a.last_insight_id + 1),
        "Example task:\n\n" ++ task ++ "\nExample solution:\n\n" ++ demonstration,
        some task, ts⟩ :=
  alistFind_dictInsert_self _ _ _

theorem claim7_demonstration_formatting_witness :
    ((["x"] : List String) ≠ []) ∧
    alistFind (add_demonstration emptyArchive "T" "D" ["x"]).uid_insight_dict "1" =
      some ⟨"1", "Example task:\n\nT\nExample solution:\n\nD", some "T", ["x"]⟩ :=
  ⟨by decide, claim7_demonstration_formatting emptyArchive "T" "D" ["x"] (by decide)⟩

/-- C8: persisting an archive with `save_archive` and then constructing a new
archive over the same storage location with `reset = false` yields an
identical id → insight mapping, and a counter equal to the prior entry
count. -/
theorem claim8_reload_fidelity (a : KnowledgeArchive) :
    (constructArchive false (save_archive a)).uid_insight_dict = a.uid_insight_dict ∧
    (constructArchive false (save_archive a)).last_insight_id =
      a.uid_insight_dict.length :=
  ⟨rfl, rfl⟩

/-- C9: `get_relevant_insights` does not mutate the archive: whenever the call
returns normally, the returned object state — `uid_insight_dict`,
`last_insight_id` and the memo-store contents alike — is exactly the input
state. -/
theorem claim9_no_mutation (q : QueryFun) (a : KnowledgeArchive) (t : Option String)
    (topics : Option (List String)) (p : KnowledgeArchive × List (String × ℚ))
    (h : get_relevant_insights q a t topics = .ok p) : p.1 = a := by
  cases topics with
  | none =>
    unfold get_relevant_insights at h
    by_cases hc : t = none ∧ (none : Option (List String)) = none
    · rw [if_pos hc] at h; cases h
    · rw [if_neg hc] at h; cases h
  | some ts =>
    simp only [get_relevant_insights] at h
    rw [if_neg (by simp)] at h
    cases hm : (topicMatches q a.memo_store ts).foldlM (scoreMatch a.uid_insight_dict) [] with
    | error e => rw [hm] at h; cases h
    | ok d => rw [hm] at h; cases h; rfl

theorem claim9_no_mutation_witness :
    get_relevant_insights witnessQuery witnessArchive none (some ([] : List String)) =
      .ok (witnessArchive, []) ∧
    ((witnessArchive, ([] : List (String × ℚ))) :
        KnowledgeArchive × List (String × ℚ)).1 = witnessArchive :=
  ⟨by rfl, claim9_no_mutation witnessQuery witnessArchive none (some []) _ (by rfl)⟩

/-- C10: with topics supplied, if every insight-id among the topics' query
results is a key of `uid_insight_dict`, the per-match lookup always succeeds
and `get_relevant_insights` returns normally; if some id is missing, the call
aborts with a key-lookup error instead of returning a partial result. -/
theorem claim10_lookup_safety (q : QueryFun) (a : KnowledgeArchive)
    (task : Option String) (ts : List String) :
    ((∀ m ∈ topicMatches q a.memo_store ts,
        (alistFind a.uid_insight_dict m.2.1).isSome) →
      ∃ r, get_relevant_insights q a task (some ts) = .ok r) ∧
    ((∃ m ∈ topicMatches q a.memo_store ts,
        alistFind a.uid_insight_dict m.2.1 = none) →
      ∃ k, get_relevant_insights q a task (some ts) = .error (.keyError k)) := by
  constructor
  · intro hres
    obtain ⟨d, hd, _⟩ := get_relevant_ok_char q a task ts hres
    exact ⟨(a, d), hd⟩
  · intro hmiss
    obtain ⟨k, hk⟩ := foldlM_scoreMatch_error _ _ [] hmiss
    refine ⟨k, ?_⟩
    simp only [get_relevant_insights]
    rw [if_neg (by simp), hk]

theorem claim10_lookup_safety_witness :
    (∃ m ∈ topicMatches witnessQuery witnessArchive.memo_store ["z"],
      alistFind witnessArchive.uid_insight_dict m.2.1 = none) ∧
    (∃ k, get_relevant_insights witnessQuery witnessArchive none (some ["z"]) =
      .error (.keyError k)) :=
  ⟨by decide,
    (claim10_lookup_safety witnessQuery witnessArchive none ["z"]).2 (by decide)⟩
